import Mathlib

/-!
Verification of the identity-matching engine of `SmartAttendanceSeparated`
(`src/server/ml-service/app/api/routes/face_recognition.py`).

The embedding models the route handlers as pure functions of their request
data (and, for the two image endpoints, of the outputs reported by the
external `face_recognition` provider).  Python floats are idealised as exact
numbers: embedding coordinates are rationals, Euclidean norms live in `ℝ`,
and the running best distance lives in `EReal` so that `float('inf')` is `⊤`.
A Python exception escaping to the outer `try` is modelled by `Option`:
`none` is the caught-exception path that produces a `success = False`
response.  Request/response field layouts are reconstructed from their use in
the route code (the pydantic schema modules are not part of the sources).
-/

namespace FaceRec

/-! ### NumPy vector arithmetic

`np.array(a) - np.array(b)` on 1-D arrays follows NumPy broadcasting: the
subtraction is elementwise when the lengths agree, broadcasts a length-one
operand against the other, and raises (here: `none`) otherwise. -/

/-- Elementwise difference of two 1-D arrays under NumPy broadcasting rules:
equal lengths subtract pointwise, a length-one array broadcasts against the
other operand, and any other length combination is an error (`none`). -/
def npSub (a b : List ℚ) : Option (List ℚ) :=
  if a.length = b.length then some (List.zipWith (fun x y => x - y) a b)
  else if a.length = 1 then some (b.map (fun y => a.headD 0 - y))
  else if b.length = 1 then some (a.map (fun x => x - b.headD 0))
  else none

/-- Sum of squares of the entries of a vector. -/
def sumSq (d : List ℚ) : ℚ := (d.map (fun x => x * x)).sum

/-- Model of `np.linalg.norm` on a 1-D array: the square root of the sum of
squared entries. -/
noncomputable def npNorm (d : List ℚ) : ℝ := Real.sqrt ((sumSq d : ℚ) : ℝ)

/-- Model of `float(np.linalg.norm(np.array(a) - np.array(b)))`, the distance
computation on line 260 (and 320) of `face_recognition.py`.  Fails exactly
when the NumPy subtraction fails. -/
noncomputable def npDist (a b : List ℚ) : Option ℝ := (npSub a b).map npNorm

/-- Euclidean (L2) distance of two equal-length vectors; this is what
`npDist` computes when the lengths agree. -/
noncomputable def edist (a b : List ℚ) : ℝ :=
  npNorm (List.zipWith (fun x y => x - y) a b)

/-! ### Request and response shapes -/

/-- One gallery entry of a match request: `{student_id, embeddings[]}`. -/
structure CandidateEmbeddings where
  student_id : String
  embeddings : List (List ℚ)
deriving DecidableEq

/-- Request body of `POST /api/ml/match-faces`. -/
structure MatchFacesRequest where
  query_embedding : List ℚ
  candidate_embeddings : List CandidateEmbeddings
  threshold : ℚ
  return_all_distances : Bool

/-- One entry of the optional `all_distances` list of a match response. -/
structure DistanceInfo where
  student_id : String
  min_distance : EReal

/-- The `match` object of a match response (the source field is named
`match`, a Lean keyword, hence `matched` here). -/
structure MatchResult where
  student_id : Option String
  distance : EReal
  confidence : EReal
  status : String

/-- Response body of `POST /api/ml/match-faces`. -/
structure MatchFacesResponse where
  success : Bool
  matched : Option MatchResult
  all_distances : Option (List DistanceInfo)
  error : Option String

/-- One detected face of a batch match request (only its embedding is read
by the handler). -/
structure DetectedFaceEmb where
  embedding : List ℚ
deriving DecidableEq

/-- Request body of `POST /api/ml/batch-match`. -/
structure BatchMatchRequest where
  detected_faces : List DetectedFaceEmb
  candidate_embeddings : List CandidateEmbeddings
  confident_threshold : ℚ

/-- One entry of the `matches` list of a batch match response. -/
structure BatchMatchResult where
  face_index : ℕ
  student_id : Option String
  distance : EReal
  status : String

/-- Response body of `POST /api/ml/batch-match` (the source field `matches`
is a Lean keyword, hence `matchList` here). -/
structure BatchMatchResponse where
  success : Bool
  matchList : Option (List BatchMatchResult)
  error : Option String

/-- A request threshold (a float in the source) as an extended real. -/
noncomputable def thrE (t : ℚ) : EReal := ((t : ℝ) : EReal)

/-! ### The match-faces handler (lines 244-299) -/

/-- The list comprehension on lines 259-262: distances from the query to
each stored embedding of one candidate; any failing distance computation
aborts it. -/
noncomputable def distList (q : List ℚ) : List (List ℚ) → Option (List ℝ)
  | [] => some []
  | e :: rest =>
    match npDist q e with
    | none => none
    | some d =>
      match distList q rest with
      | none => none
      | some ds => some (d :: ds)

/-- Lines 259-263: `min(distances) if distances else float('inf')`, the
candidate's representative distance.  Folding with `⊤` realises both the
minimum of a non-empty list (all entries are finite) and the `inf` default
for an identity with no stored embeddings. -/
noncomputable def minOverEmbeddings (q : List ℚ) (c : CandidateEmbeddings) :
    Option EReal :=
  match distList q c.embeddings with
  | none => none
  | some ds => some (ds.foldr (fun d m => min ((d : ℝ) : EReal) m) ⊤)

/-- Mutable state of the candidate loop of `match_faces`:
`best_match`, `best_distance` and the accumulating `all_distances`. -/
structure MatchState where
  best_match : Option String
  best_distance : EReal
  all_distances : List DistanceInfo

/-- The candidate loop of `match_faces` (lines 257-273): per candidate,
compute the representative distance, optionally record it, and keep the
strictly smallest distance seen so far together with its student id. -/
noncomputable def matchLoop (q : List ℚ) (ret : Bool) :
    MatchState → List CandidateEmbeddings → Option MatchState
  | st, [] => some st
  | st, c :: rest =>
    match minOverEmbeddings q c with
    | none => none
    | some md =>
      let ads := if ret then st.all_distances ++ [⟨c.student_id, md⟩]
                 else st.all_distances
      if md < st.best_distance then
        matchLoop q ret ⟨some c.student_id, md, ads⟩ rest
      else
        matchLoop q ret ⟨st.best_match, st.best_distance, ads⟩ rest

/-- The `match_faces` handler (lines 244-299): run the candidate loop from
`best_distance = inf`, then apply the threshold decision of lines 276-282
and build the response of lines 284-293; an exception (a failed distance
computation) yields the `success=False` response of lines 295-299. -/
noncomputable def match_faces (req : MatchFacesRequest) : MatchFacesResponse :=
  match matchLoop req.query_embedding req.return_all_distances
      ⟨none, ⊤, []⟩ req.candidate_embeddings with
  | none => ⟨false, none, none, some "Matching error"⟩
  | some st =>
    if st.best_distance < thrE req.threshold then
      ⟨true,
       if st.best_distance < ⊤ then
         some ⟨st.best_match, st.best_distance, 1 - st.best_distance, "confident"⟩
       else none,
       if req.return_all_distances then some st.all_distances else none,
       none⟩
    else
      ⟨true,
       if st.best_distance < ⊤ then
         some ⟨none, st.best_distance, 0, "no_match"⟩
       else none,
       if req.return_all_distances then some st.all_distances else none,
       none⟩

/-! ### The batch-match handler (lines 302-352) -/

/-- The inner candidate loop of `batch_match` (lines 317-327): like
`matchLoop` but without an `all_distances` accumulator; the state is the
pair `(best_match, best_distance)`. -/
noncomputable def batchInner (q : List ℚ) :
    Option String × EReal → List CandidateEmbeddings →
    Option (Option String × EReal)
  | st, [] => some st
  | st, c :: rest =>
    match minOverEmbeddings q c with
    | none => none
    | some md =>
      if md < st.2 then batchInner q (some c.student_id, md) rest
      else batchInner q st rest

/-- Lines 313-341 for a single detected face: run the candidate loop and
apply the `present` / `unknown` decision of lines 330-334, producing the
`BatchMatchResult` appended on lines 336-341. -/
noncomputable def batchOne (cands : List CandidateEmbeddings) (thr : ℚ)
    (idx : ℕ) (f : DetectedFaceEmb) : Option BatchMatchResult :=
  match batchInner f.embedding (none, ⊤) cands with
  | none => none
  | some st =>
    if st.2 < thrE thr then some ⟨idx, st.1, st.2, "present"⟩
    else some ⟨idx, none, st.2, "unknown"⟩

/-- The enumerated face loop of `batch_match` (lines 313-341): one result
per detected face, in input order, with `face_index` the running position;
a failure at any face aborts the whole loop. -/
noncomputable def batchLoop (cands : List CandidateEmbeddings) (thr : ℚ) :
    ℕ → List DetectedFaceEmb → Option (List BatchMatchResult)
  | _, [] => some []
  | idx, f :: rest =>
    match batchOne cands thr idx f with
    | none => none
    | some r =>
      match batchLoop cands thr (idx + 1) rest with
      | none => none
      | some rs => some (r :: rs)

/-- The `batch_match` handler (lines 302-352): the face loop starting at
index 0, wrapped in the success response of lines 343-346; an exception
yields the `success=False` response of lines 348-352. -/
noncomputable def batch_match (req : BatchMatchRequest) : BatchMatchResponse :=
  match batchLoop req.candidate_embeddings req.confident_threshold 0
      req.detected_faces with
  | none => ⟨false, none, some "Batch matching error"⟩
  | some ms => ⟨true, some ms, none⟩

/-! ### Spec-side description of the decision policy -/

/-- Representative distance of one identity: the minimum, over its stored
reference embeddings, of the Euclidean distance to the query (`⊤` for an
identity with no embeddings).  This follows the spec's §4.2 step 1. -/
noncomputable def reprDist (q : List ℚ) (c : CandidateEmbeddings) : EReal :=
  (c.embeddings.map (edist q)).foldr (fun d m => min ((d : ℝ) : EReal) m) ⊤

/-- Best distance over a gallery: the minimum of the representative
distances of its identities (`⊤` for an empty or unusable gallery). -/
noncomputable def galleryMin (q : List ℚ) (cands : List CandidateEmbeddings) :
    EReal :=
  (cands.map (reprDist q)).foldr min ⊤

/-- The first identity of the gallery, in iteration order, whose
representative distance attains the gallery minimum. -/
noncomputable def firstArgmin (q : List ℚ) (cands : List CandidateEmbeddings) :
    Option String :=
  (cands.find? fun c => decide (reprDist q c ≤ galleryMin q cands)).map
    CandidateEmbeddings.student_id

/-- All stored embeddings of all gallery identities have the query's
length, so every distance computation succeeds without broadcasting. -/
def dimsOK (q : List ℚ) (cands : List CandidateEmbeddings) : Prop :=
  ∀ c ∈ cands, ∀ e ∈ c.embeddings, e.length = q.length

instance (q : List ℚ) (cands : List CandidateEmbeddings) :
    Decidable (dimsOK q cands) :=
  List.decidableBAll _ cands

/-- The gallery has at least one identity with at least one stored
reference embedding. -/
def usableGallery (cands : List CandidateEmbeddings) : Prop :=
  ∃ c ∈ cands, c.embeddings ≠ []

instance (cands : List CandidateEmbeddings) :
    Decidable (usableGallery cands) :=
  List.decidableBEx _ cands

/-! ### The image endpoints (boundary with the embedding provider)

`encode_face` and `detect_faces` are modelled as functions of the request
parameters together with the face locations and encodings reported by the
external `face_recognition` provider for the decoded `h × w` image. -/

/-- Error codes from `app.core.constants` (imported, not defined, in the
sources); modelled as abstract tags. -/
inductive ErrorCode
  | NO_FACE
  | MULTIPLE_FACES
  | FACE_TOO_SMALL
  | INVALID_IMAGE
  | PROCESSING
deriving DecidableEq

/-- A face bounding box as reported by the provider: `(top, right, bottom,
left)` pixel coordinates. -/
structure FaceLocation where
  top : ℤ
  right : ℤ
  bottom : ℤ
  left : ℤ
deriving DecidableEq

/-- Bounding-box area of a face divided by total image area
(lines 86-87 and 202-203). -/
def faceAreaRatio (h w : ℕ) (loc : FaceLocation) : ℚ :=
  (((loc.bottom - loc.top) * (loc.right - loc.left) : ℤ) : ℚ) / ((h * w : ℕ) : ℚ)

/-- Response of `POST /api/ml/encode-face`, reduced to the fields the
claims speak about. -/
structure EncodeFaceResponse where
  success : Bool
  error_code : Option ErrorCode
  embedding : Option (List ℚ)
  face_location : Option FaceLocation
deriving DecidableEq

/-- The validation core of the `encode_face` handler (lines 59-117), given
the provider's detected locations and the encoding it computes for the
first location: no face and multiple-face gates, then the face-size gate on
`locations[0]`, then the success response. -/
def encode_face (h w : ℕ) (validate_single : Bool) (min_face_area_ratio : ℚ)
    (locations : List FaceLocation) (encoding : List ℚ) : EncodeFaceResponse :=
  match locations with
  | [] => ⟨false, some ErrorCode.NO_FACE, none, none⟩
  | loc :: rest =>
    if validate_single ∧ rest ≠ [] then
      ⟨false, some ErrorCode.MULTIPLE_FACES, none, none⟩
    else if faceAreaRatio h w loc < min_face_area_ratio then
      ⟨false, some ErrorCode.FACE_TOO_SMALL, none, none⟩
    else
      ⟨true, none, some encoding, some loc⟩

/-- One face of a `detect_faces` response. -/
structure DetectedFaceInfo where
  embedding : List ℚ
  location : FaceLocation
deriving DecidableEq

/-- Response of `POST /api/ml/detect-faces`, reduced to the fields the
claims speak about. -/
structure DetectFacesResponse where
  success : Bool
  faces : Option (List DetectedFaceInfo)
  count : Option ℕ
deriving DecidableEq

/-- The per-face loop of the `detect_faces` handler (lines 200-217): zip
locations with encodings and keep exactly the faces whose area ratio meets
the request minimum (`continue` silently drops the rest). -/
def detectKept (h w : ℕ) (min_face_area_ratio : ℚ)
    (pairs : List (FaceLocation × List ℚ)) : List DetectedFaceInfo :=
  match pairs with
  | [] => []
  | p :: rest =>
    if faceAreaRatio h w p.1 < min_face_area_ratio then
      detectKept h w min_face_area_ratio rest
    else
      ⟨p.2, p.1⟩ :: detectKept h w min_face_area_ratio rest

/-- The `detect_faces` handler (lines 144-241), given the provider's
locations and encodings: an empty detection succeeds with no faces
(lines 180-190); otherwise the per-face size gate drops small faces and the
call succeeds with the survivors (lines 200-229). -/
def detect_faces (h w : ℕ) (min_face_area_ratio : ℚ)
    (locations : List FaceLocation) (encodings : List (List ℚ)) :
    DetectFacesResponse :=
  if locations = [] then ⟨true, some [], some 0⟩
  else
    let faces := detectKept h w min_face_area_ratio (locations.zip encodings)
    ⟨true, some faces, some faces.length⟩

/-! ### Exception-free view of the candidate loop -/

/-- The candidate loop with the failure branch and the `all_distances`
accumulator stripped away: the pure evolution of
`(best_match, best_distance)`. -/
noncomputable def pureBest (q : List ℚ) :
    Option String × EReal → List CandidateEmbeddings → Option String × EReal
  | st, [] => st
  | st, c :: rest =>
    if reprDist q c < st.2 then pureBest q (some c.student_id, reprDist q c) rest
    else pureBest q st rest

/-- The response `match_faces` produces when every distance computation
succeeds, written with the spec's vocabulary: the best distance is the
gallery minimum, the reported identity is the first identity attaining it,
status and confidence follow the threshold decision, and the optional
per-identity list holds each identity's representative distance. -/
noncomputable def specResponse (req : MatchFacesRequest) : MatchFacesResponse :=
  let gm := galleryMin req.query_embedding req.candidate_embeddings
  ⟨true,
   if gm < thrE req.threshold then
     some ⟨firstArgmin req.query_embedding req.candidate_embeddings,
           gm, 1 - gm, "confident"⟩
   else if gm < ⊤ then
     some ⟨none, gm, 0, "no_match"⟩
   else none,
   if req.return_all_distances then
     some (req.candidate_embeddings.map fun c =>
       ⟨c.student_id, reprDist req.query_embedding c⟩)
   else none,
   none⟩

/-- The batch result for one detected face, written with the spec's
vocabulary: the single-query decision rule applied to this face's embedding
against the shared gallery, under the `present` / `unknown` labels. -/
noncomputable def specBatchOne (cands : List CandidateEmbeddings) (thr : ℚ)
    (idx : ℕ) (f : DetectedFaceEmb) : BatchMatchResult :=
  let gm := galleryMin f.embedding cands
  if gm < thrE thr then ⟨idx, firstArgmin f.embedding cands, gm, "present"⟩
  else ⟨idx, none, gm, "unknown"⟩

/-- The batch results for a list of detected faces starting at a given
index: one `specBatchOne` per face, in input order. -/
noncomputable def specBatchList (cands : List CandidateEmbeddings) (thr : ℚ) :
    ℕ → List DetectedFaceEmb → List BatchMatchResult
  | _, [] => []
  | idx, f :: rest =>
    specBatchOne cands thr idx f :: specBatchList cands thr (idx + 1) rest

/-! ### Concrete sample data for witnesses and counterexamples -/

/-- A gallery identity with the single one-dimensional embedding `[0]`. -/
def candS1 : CandidateEmbeddings := ⟨"S1", [[0]]⟩

/-- A gallery identity with the single two-dimensional embedding `[0, 0]`. -/
def candS2 : CandidateEmbeddings := ⟨"S2", [[0, 0]]⟩

/-- A match request whose query coincides with the only stored embedding. -/
def reqS1 : MatchFacesRequest := ⟨[0], [candS1], 1, false⟩

/-- A match request whose two-dimensional query meets a one-dimensional
stored embedding: NumPy broadcasting applies. -/
def reqBroadcast : MatchFacesRequest := ⟨[0, 0], [candS1], 1, false⟩

/-- A match request with an empty gallery. -/
def reqEmptyG : MatchFacesRequest := ⟨[0], [], 1, false⟩

/-- A match request whose three-dimensional query meets a two-dimensional
stored embedding: no broadcasting, the computation raises. -/
def reqBadDim : MatchFacesRequest := ⟨[0, 0, 0], [candS2], 1, false⟩

/-- A detected face with the one-dimensional embedding `[0]`. -/
def faceZ : DetectedFaceEmb := ⟨[0]⟩

/-- A batch request whose single face coincides with the only stored
embedding. -/
def breqS1 : BatchMatchRequest := ⟨[faceZ], [candS1], 1⟩

/-- A batch request with a three-vs-two dimension mismatch. -/
def breqBadDim : BatchMatchRequest := ⟨[⟨[0, 0, 0]⟩], [candS2], 1⟩

/-- A batch request with an empty gallery. -/
def breqEmptyG : BatchMatchRequest := ⟨[faceZ], [], 1⟩

/-- Two sample face bounding boxes: a 10×10 box and a 2×2 box inside a
10×10 image. -/
def locBig : FaceLocation := ⟨0, 10, 10, 0⟩

/-- The small 2×2 box. -/
def locSmall : FaceLocation := ⟨0, 2, 2, 0⟩

/-! ### Lemmas on the distance function -/

theorem sumSq_cons (x : ℚ) (d : List ℚ) : sumSq (x :: d) = x * x + sumSq d := by
  simp [sumSq]

theorem sumSq_nonneg (d : List ℚ) : 0 ≤ sumSq d := by
  induction d with
  | nil => simp [sumSq]
  | cons x t ih =>
    rw [sumSq_cons]
    exact add_nonneg (mul_self_nonneg x) ih

theorem sumSq_eq_zero_iff (d : List ℚ) : sumSq d = 0 ↔ ∀ x ∈ d, x = 0 := by
  induction d with
  | nil => simp [sumSq]
  | cons x t ih =>
    rw [sumSq_cons]
    rw [add_eq_zero_iff_of_nonneg (mul_self_nonneg x) (sumSq_nonneg t)]
    simp [mul_self_eq_zero, ih]

theorem sumSq_sub_self (a : List ℚ) :
    sumSq (List.zipWith (fun x y => x - y) a a) = 0 := by
  induction a with
  | nil => simp [sumSq]
  | cons x t ih => simpa [sumSq_cons] using ih

theorem sumSq_sub_comm (a b : List ℚ) :
    sumSq (List.zipWith (fun x y => x - y) a b) =
      sumSq (List.zipWith (fun x y => x - y) b a) := by
  induction a generalizing b with
  | nil => cases b <;> rfl
  | cons x t ih =>
    cases b with
    | nil => rfl
    | cons y u =>
      simp only [List.zipWith_cons_cons, sumSq_cons, ih u]
      ring_nf

theorem zip_sub_all_zero (a b : List ℚ) (hlen : a.length = b.length)
    (h : ∀ x ∈ List.zipWith (fun x y => x - y) a b, x = 0) : a = b := by
  induction a generalizing b with
  | nil =>
    cases b with
    | nil => rfl
    | cons y u => simp at hlen
  | cons x t ih =>
    cases b with
    | nil => simp at hlen
    | cons y u =>
      simp only [List.zipWith_cons_cons, List.mem_cons] at h
      have hx : x - y = 0 := h (x - y) (Or.inl rfl)
      have ht : t = u := by
        refine ih u ?_ ?_
        · simpa using hlen
        · exact fun z hz => h z (Or.inr hz)
      rw [sub_eq_zero] at hx
      rw [hx, ht]

theorem edist_nonneg (a b : List ℚ) : 0 ≤ edist a b :=
  Real.sqrt_nonneg _

theorem edist_comm (a b : List ℚ) : edist a b = edist b a := by
  unfold edist npNorm
  rw [sumSq_sub_comm]

theorem edist_self (a : List ℚ) : edist a a = 0 := by
  unfold edist npNorm
  rw [sumSq_sub_self]
  simp

theorem edist_eq_zero_iff (a b : List ℚ) (hlen : a.length = b.length) :
    edist a b = 0 ↔ a = b := by
  unfold edist npNorm
  constructor
  · intro h
    rw [Real.sqrt_eq_zero'] at h
    have hq : sumSq (List.zipWith (fun x y => x - y) a b) ≤ 0 := by
      exact_mod_cast h
    have hz : sumSq (List.zipWith (fun x y => x - y) a b) = 0 :=
      le_antisymm hq (sumSq_nonneg _)
    exact zip_sub_all_zero a b hlen ((sumSq_eq_zero_iff _).mp hz)
  · intro h
    subst h
    rw [sumSq_sub_self]
    simp

/-! ### Lemmas on the NumPy subtraction and the distance list -/

theorem npSub_of_eq_length (a b : List ℚ) (h : a.length = b.length) :
    npSub a b = some (List.zipWith (fun x y => x - y) a b) := by
  simp [npSub, h]

theorem npDist_of_eq_length (q e : List ℚ) (h : e.length = q.length) :
    npDist q e = some (edist q e) := by
  rw [npDist, npSub_of_eq_length q e h.symm]
  rfl

theorem npDist_eq_none (q e : List ℚ) (h1 : q.length ≠ e.length)
    (h2 : q.length ≠ 1) (h3 : e.length ≠ 1) : npDist q e = none := by
  simp [npDist, npSub, h1, h2, h3]

theorem distList_of_dims (q : List ℚ) (embs : List (List ℚ))
    (h : ∀ e ∈ embs, e.length = q.length) :
    distList q embs = some (embs.map (edist q)) := by
  induction embs with
  | nil => rfl
  | cons e rest ih =>
    have he : e.length = q.length := h e (List.mem_cons_self e rest)
    have hr : ∀ x ∈ rest, x.length = q.length :=
      fun x hx => h x (List.mem_cons_of_mem e hx)
    rw [distList, npDist_of_eq_length q e he, ih hr]
    rfl

theorem distList_eq_none (q : List ℚ) (embs : List (List ℚ)) (e : List ℚ)
    (he : e ∈ embs) (h : npDist q e = none) : distList q embs = none := by
  induction embs with
  | nil => cases he
  | cons x rest ih =>
    rcases List.mem_cons.mp he with rfl | hmem
    · rw [distList, h]
    · rw [distList]
      cases hx : npDist q x with
      | none => rfl
      | some d => rw [ih hmem]

theorem minOver_of_dims (q : List ℚ) (c : CandidateEmbeddings)
    (h : ∀ e ∈ c.embeddings, e.length = q.length) :
    minOverEmbeddings q c = some (reprDist q c) := by
  rw [minOverEmbeddings, distList_of_dims q c.embeddings h]
  rfl

theorem minOver_eq_none (q : List ℚ) (c : CandidateEmbeddings) (e : List ℚ)
    (he : e ∈ c.embeddings) (h : npDist q e = none) :
    minOverEmbeddings q c = none := by
  rw [minOverEmbeddings, distList_eq_none q c.embeddings e he h]

theorem minOver_of_empty (q : List ℚ) (c : CandidateEmbeddings)
    (h : c.embeddings = []) : minOverEmbeddings q c = some ⊤ := by
  rw [minOverEmbeddings, h]
  rfl

/-! ### Folded minima over the extended reals -/

theorem min_fold_le {α : Type} (f : α → ℝ) (l : List α) (x : α) (hx : x ∈ l) :
    (l.map f).foldr (fun d m => min ((d : ℝ) : EReal) m) ⊤ ≤ ((f x : ℝ) : EReal) := by
  induction l with
  | nil => cases hx
  | cons a t ih =>
    simp only [List.map_cons, List.foldr_cons]
    rcases List.mem_cons.mp hx with rfl | hmem
    · exact min_le_left _ _
    · exact le_trans (min_le_right _ _) (ih hmem)

theorem min_fold_attains {α : Type} (f : α → ℝ) (l : List α) :
    (l.map f).foldr (fun d m => min ((d : ℝ) : EReal) m) ⊤ = ⊤ ∨
      ∃ x ∈ l, (l.map f).foldr (fun d m => min ((d : ℝ) : EReal) m) ⊤ =
        ((f x : ℝ) : EReal) := by
  induction l with
  | nil => exact Or.inl rfl
  | cons a t ih =>
    simp only [List.map_cons, List.foldr_cons]
    rcases le_total ((f a : ℝ) : EReal)
        ((t.map f).foldr (fun d m => min ((d : ℝ) : EReal) m) ⊤) with hle | hge
    · exact Or.inr ⟨a, List.mem_cons_self a t, min_eq_left hle⟩
    · rw [min_eq_right hge]
      rcases ih with htop | ⟨x, hx, heq⟩
      · exact Or.inl htop
      · exact Or.inr ⟨x, List.mem_cons_of_mem a hx, heq⟩

theorem emin_fold_le {α : Type} (f : α → EReal) (l : List α) (x : α)
    (hx : x ∈ l) : (l.map f).foldr min ⊤ ≤ f x := by
  induction l with
  | nil => cases hx
  | cons a t ih =>
    simp only [List.map_cons, List.foldr_cons]
    rcases List.mem_cons.mp hx with rfl | hmem
    · exact min_le_left _ _
    · exact le_trans (min_le_right _ _) (ih hmem)

theorem emin_fold_attains {α : Type} (f : α → EReal) (l : List α) :
    (l.map f).foldr min ⊤ = ⊤ ∨
      ∃ x ∈ l, (l.map f).foldr min ⊤ = f x := by
  induction l with
  | nil => exact Or.inl rfl
  | cons a t ih =>
    simp only [List.map_cons, List.foldr_cons]
    rcases le_total (f a) ((t.map f).foldr min ⊤) with hle | hge
    · exact Or.inr ⟨a, List.mem_cons_self a t, min_eq_left hle⟩
    · rw [min_eq_right hge]
      rcases ih with htop | ⟨x, hx, heq⟩
      · exact Or.inl htop
      · exact Or.inr ⟨x, List.mem_cons_of_mem a hx, heq⟩

/-! ### Lemmas on representative distances and the gallery minimum -/

theorem reprDist_le_edist (q : List ℚ) (c : CandidateEmbeddings) (e : List ℚ)
    (he : e ∈ c.embeddings) :
    reprDist q c ≤ ((edist q e : ℝ) : EReal) :=
  min_fold_le (edist q) c.embeddings e he

theorem reprDist_attains (q : List ℚ) (c : CandidateEmbeddings) :
    reprDist q c = ⊤ ∨
      ∃ e ∈ c.embeddings, reprDist q c = ((edist q e : ℝ) : EReal) :=
  min_fold_attains (edist q) c.embeddings

theorem reprDist_of_empty (q : List ℚ) (c : CandidateEmbeddings)
    (h : c.embeddings = []) : reprDist q c = ⊤ := by
  rw [reprDist, h]
  rfl

theorem reprDist_lt_top (q : List ℚ) (c : CandidateEmbeddings)
    (h : c.embeddings ≠ []) : reprDist q c < ⊤ := by
  obtain ⟨e, he⟩ := List.exists_mem_of_ne_nil c.embeddings h
  exact lt_of_le_of_lt (reprDist_le_edist q c e he) (EReal.coe_lt_top _)

theorem embeddings_ne_nil_of_lt_top (q : List ℚ) (c : CandidateEmbeddings)
    (h : reprDist q c < ⊤) : c.embeddings ≠ [] := by
  intro hnil
  rw [reprDist_of_empty q c hnil] at h
  exact absurd h (lt_irrefl ⊤)

theorem galleryMin_cons (q : List ℚ) (c : CandidateEmbeddings)
    (cs : List CandidateEmbeddings) :
    galleryMin q (c :: cs) = min (reprDist q c) (galleryMin q cs) := rfl

theorem galleryMin_le (q : List ℚ) (cands : List CandidateEmbeddings)
    (c : CandidateEmbeddings) (hc : c ∈ cands) :
    galleryMin q cands ≤ reprDist q c :=
  emin_fold_le (reprDist q) cands c hc

theorem galleryMin_attains (q : List ℚ) (cands : List CandidateEmbeddings) :
    galleryMin q cands = ⊤ ∨
      ∃ c ∈ cands, galleryMin q cands = reprDist q c :=
  emin_fold_attains (reprDist q) cands

theorem galleryMin_lt_top (q : List ℚ) (cands : List CandidateEmbeddings)
    (hu : usableGallery cands) : galleryMin q cands < ⊤ := by
  obtain ⟨c, hc, hne⟩ := hu
  exact lt_of_le_of_lt (galleryMin_le q cands c hc) (reprDist_lt_top q c hne)

theorem galleryMin_of_all_empty (q : List ℚ) (cands : List CandidateEmbeddings)
    (h : ∀ c ∈ cands, c.embeddings = []) : galleryMin q cands = ⊤ := by
  rcases galleryMin_attains q cands with htop | ⟨c, hc, heq⟩
  · exact htop
  · rw [heq, reprDist_of_empty q c (h c hc)]

/-! ### The first identity attaining the minimum -/

theorem find?_decomp {α : Type} (p : α → Bool) (l : List α) (a : α)
    (h : l.find? p = some a) :
    ∃ l1 l2, l = l1 ++ a :: l2 ∧ p a = true ∧ ∀ x ∈ l1, ¬ p x = true := by
  induction l with
  | nil => cases h
  | cons b t ih =>
    by_cases hb : p b = true
    · rw [List.find?_cons_of_pos t hb] at h
      cases h
      exact ⟨[], t, rfl, hb, by intro x hx; cases hx⟩
    · rw [List.find?_cons_of_neg t hb] at h
      obtain ⟨l1, l2, heq, hp, hall⟩ := ih h
      refine ⟨b :: l1, l2, by rw [heq]; rfl, hp, ?_⟩
      intro x hx
      rcases List.mem_cons.mp hx with rfl | hx2
      · exact hb
      · exact hall x hx2

theorem firstArgmin_isSome (q : List ℚ) (cands : List CandidateEmbeddings)
    (h : galleryMin q cands < ⊤) : ∃ s, firstArgmin q cands = some s := by
  rcases galleryMin_attains q cands with htop | ⟨c, hc, heq⟩
  · rw [htop] at h
    exact absurd h (lt_irrefl ⊤)
  · have hsome : ((cands.find? fun x =>
        decide (reprDist q x ≤ galleryMin q cands)).isSome) := by
      rw [List.find?_isSome]
      exact ⟨c, hc, decide_eq_true (le_of_eq heq.symm)⟩
    rw [firstArgmin]
    cases hfind : cands.find? fun x =>
        decide (reprDist q x ≤ galleryMin q cands) with
    | none => rw [hfind] at hsome; cases hsome
    | some a => exact ⟨a.student_id, rfl⟩

/-! ### The pure candidate loop -/

theorem pureBest_snd (q : List ℚ) (cands : List CandidateEmbeddings) :
    ∀ st : Option String × EReal,
      (pureBest q st cands).2 = min st.2 (galleryMin q cands) := by
  induction cands with
  | nil =>
    intro st
    rw [pureBest]
    exact (min_eq_left le_top).symm
  | cons c cs ih =>
    intro st
    rw [pureBest, galleryMin_cons]
    by_cases hlt : reprDist q c < st.2
    · rw [if_pos hlt, ih]
      have hle : min (reprDist q c) (galleryMin q cs) ≤ st.2 :=
        le_of_lt (lt_of_le_of_lt (min_le_left _ _) hlt)
      rw [min_eq_right hle]
    · rw [if_neg hlt, ih, ← min_assoc, min_eq_left (not_lt.mp hlt)]

theorem pureBest_frozen (q : List ℚ) (cands : List CandidateEmbeddings) :
    ∀ st : Option String × EReal,
      st.2 ≤ galleryMin q cands → pureBest q st cands = st := by
  induction cands with
  | nil => intro st _; rfl
  | cons c cs ih =>
    intro st h
    rw [galleryMin_cons] at h
    rw [pureBest, if_neg (not_lt.mpr (le_trans h (min_le_left _ _)))]
    exact ih st (le_trans h (min_le_right _ _))

theorem pureBest_fst (q : List ℚ) (cands : List CandidateEmbeddings) :
    ∀ st : Option String × EReal, galleryMin q cands < st.2 →
      (pureBest q st cands).1 = firstArgmin q cands := by
  induction cands with
  | nil =>
    intro st h
    exact absurd h (not_lt.mpr le_top)
  | cons c cs ih =>
    intro st h
    by_cases hc : reprDist q c ≤ galleryMin q cs
    · have hg : galleryMin q (c :: cs) = reprDist q c := by
        rw [galleryMin_cons, min_eq_left hc]
      have hlt : reprDist q c < st.2 := by rw [← hg]; exact h
      rw [pureBest, if_pos hlt, pureBest_frozen q cs (some c.student_id,
        reprDist q c) hc, firstArgmin]
      rw [List.find?_cons_of_pos cs (decide_eq_true (le_of_eq hg.symm))]
      rfl
    · have hcs : galleryMin q cs < reprDist q c := not_le.mp hc
      have hg : galleryMin q (c :: cs) = galleryMin q cs := by
        rw [galleryMin_cons, min_eq_right (le_of_lt hcs)]
      rw [firstArgmin]
      simp only [hg]
      rw [List.find?_cons_of_neg cs (by
        rw [decide_eq_true_eq]
        exact hc)]
      rw [pureBest]
      by_cases hlt : reprDist q c < st.2
      · rw [if_pos hlt]
        have := ih (some c.student_id, reprDist q c) hcs
        rw [firstArgmin] at this
        exact this
      · rw [if_neg hlt]
        have hst : galleryMin q cs < st.2 := by
          rw [← hg]; exact h
        have := ih st hst
        rw [firstArgmin] at this
        exact this

/-! ### The source loops coincide with the pure loop when dimensions agree -/

theorem batchInner_of_dims (q : List ℚ) (cands : List CandidateEmbeddings)
    (hd : ∀ c ∈ cands, ∀ e ∈ c.embeddings, e.length = q.length) :
    ∀ st : Option String × EReal,
      batchInner q st cands = some (pureBest q st cands) := by
  induction cands with
  | nil => intro st; rfl
  | cons c cs ih =>
    intro st
    have hmo := minOver_of_dims q c (hd c (List.mem_cons_self c cs))
    have hrest : ∀ b ∈ cs, ∀ e ∈ b.embeddings, e.length = q.length :=
      fun b hb => hd b (List.mem_cons_of_mem c hb)
    simp only [batchInner, hmo, pureBest]
    by_cases hlt : reprDist q c < st.2
    · simp only [if_pos hlt]
      exact ih hrest _
    · simp only [if_neg hlt]
      exact ih hrest _

theorem matchLoop_of_dims (q : List ℚ) (ret : Bool)
    (cands : List CandidateEmbeddings)
    (hd : ∀ c ∈ cands, ∀ e ∈ c.embeddings, e.length = q.length) :
    ∀ st : MatchState,
      matchLoop q ret st cands = some
        ⟨(pureBest q (st.best_match, st.best_distance) cands).1,
         (pureBest q (st.best_match, st.best_distance) cands).2,
         st.all_distances ++
           (if ret then cands.map
             (fun c => ⟨c.student_id, reprDist q c⟩) else [])⟩ := by
  induction cands with
  | nil =>
    intro st
    rw [matchLoop, pureBest]
    cases ret <;> simp
  | cons c cs ih =>
    intro st
    have hmo := minOver_of_dims q c (hd c (List.mem_cons_self c cs))
    have hrest : ∀ b ∈ cs, ∀ e ∈ b.embeddings, e.length = q.length :=
      fun b hb => hd b (List.mem_cons_of_mem c hb)
    simp only [matchLoop, hmo, pureBest]
    by_cases hlt : reprDist q c < st.best_distance
    · simp only [if_pos hlt]
      rw [ih hrest]
      cases ret <;> simp [List.append_assoc]
    · simp only [if_neg hlt]
      rw [ih hrest]
      cases ret <;> simp [List.append_assoc]

theorem matchLoop_eq_none (q : List ℚ) (ret : Bool)
    (cands : List CandidateEmbeddings) (c : CandidateEmbeddings)
    (hc : c ∈ cands) (h : minOverEmbeddings q c = none) :
    ∀ st, matchLoop q ret st cands = none := by
  induction cands with
  | nil => cases hc
  | cons b cs ih =>
    intro st
    rcases List.mem_cons.mp hc with rfl | hmem
    · simp only [matchLoop, h]
    · cases hb : minOverEmbeddings q b with
      | none => simp only [matchLoop, hb]
      | some md =>
        simp only [matchLoop, hb]
        by_cases hlt : md < st.best_distance
        · rw [if_pos hlt]; exact ih hmem _
        · rw [if_neg hlt]; exact ih hmem _

theorem batchInner_eq_none (q : List ℚ) (cands : List CandidateEmbeddings)
    (c : CandidateEmbeddings) (hc : c ∈ cands)
    (h : minOverEmbeddings q c = none) :
    ∀ st, batchInner q st cands = none := by
  induction cands with
  | nil => cases hc
  | cons b cs ih =>
    intro st
    rcases List.mem_cons.mp hc with rfl | hmem
    · simp only [batchInner, h]
    · cases hb : minOverEmbeddings q b with
      | none => simp only [batchInner, hb]
      | some md =>
        simp only [batchInner, hb]
        by_cases hlt : md < st.2
        · rw [if_pos hlt]; exact ih hmem _
        · rw [if_neg hlt]; exact ih hmem _

theorem batchLoop_eq_none (cands : List CandidateEmbeddings) (thr : ℚ)
    (faces : List DetectedFaceEmb) (f : DetectedFaceEmb) (hf : f ∈ faces)
    (h : batchInner f.embedding (none, ⊤) cands = none) :
    ∀ idx, batchLoop cands thr idx faces = none := by
  induction faces with
  | nil => cases hf
  | cons g gs ih =>
    intro idx
    rcases List.mem_cons.mp hf with rfl | hmem
    · simp only [batchLoop, batchOne, h]
    · cases hg : batchOne cands thr idx g with
      | none => simp only [batchLoop, hg]
      | some r => simp only [batchLoop, hg, ih hmem (idx + 1)]

/-! ### Characterization of the two handlers -/

theorem match_faces_spec (req : MatchFacesRequest)
    (hd : dimsOK req.query_embedding req.candidate_embeddings) :
    match_faces req = specResponse req := by
  have hloop := matchLoop_of_dims req.query_embedding req.return_all_distances
    req.candidate_embeddings hd ⟨none, ⊤, []⟩
  simp only [match_faces, hloop, specResponse]
  have hsnd : (pureBest req.query_embedding (none, (⊤ : EReal))
      req.candidate_embeddings).2 =
      galleryMin req.query_embedding req.candidate_embeddings := by
    rw [pureBest_snd]
    exact min_eq_right le_top
  by_cases hthr : galleryMin req.query_embedding req.candidate_embeddings <
      thrE req.threshold
  · have htop : galleryMin req.query_embedding req.candidate_embeddings <
        ⊤ := lt_trans hthr (EReal.coe_lt_top _)
    have hfst : (pureBest req.query_embedding (none, (⊤ : EReal))
        req.candidate_embeddings).1 =
        firstArgmin req.query_embedding req.candidate_embeddings :=
      pureBest_fst req.query_embedding req.candidate_embeddings _ htop
    simp only [hsnd, hfst, if_pos hthr, if_pos htop]
    cases hret : req.return_all_distances <;> simp
  · by_cases htop : galleryMin req.query_embedding req.candidate_embeddings <
        (⊤ : EReal)
    · simp only [hsnd, if_neg hthr, if_pos htop]
      cases hret : req.return_all_distances <;> simp
    · simp only [hsnd, if_neg hthr, if_neg htop]
      cases hret : req.return_all_distances <;> simp

theorem batchOne_spec (cands : List CandidateEmbeddings) (thr : ℚ) (idx : ℕ)
    (f : DetectedFaceEmb)
    (hd : ∀ c ∈ cands, ∀ e ∈ c.embeddings, e.length = f.embedding.length) :
    batchOne cands thr idx f = some (specBatchOne cands thr idx f) := by
  have hinner := batchInner_of_dims f.embedding cands hd
    ((none : Option String), (⊤ : EReal))
  simp only [batchOne, hinner, specBatchOne]
  have hsnd : (pureBest f.embedding (none, (⊤ : EReal)) cands).2 =
      galleryMin f.embedding cands := by
    rw [pureBest_snd]
    exact min_eq_right le_top
  by_cases hthr : galleryMin f.embedding cands < thrE thr
  · have htop : galleryMin f.embedding cands < ⊤ :=
      lt_trans hthr (EReal.coe_lt_top _)
    have hfst : (pureBest f.embedding (none, (⊤ : EReal)) cands).1 =
        firstArgmin f.embedding cands :=
      pureBest_fst f.embedding cands _ htop
    simp only [hsnd, hfst, if_pos hthr]
  · simp only [hsnd, if_neg hthr]

theorem batchLoop_spec (cands : List CandidateEmbeddings) (thr : ℚ)
    (faces : List DetectedFaceEmb)
    (hd : ∀ f ∈ faces, ∀ c ∈ cands, ∀ e ∈ c.embeddings,
      e.length = f.embedding.length) :
    ∀ idx, batchLoop cands thr idx faces =
      some (specBatchList cands thr idx faces) := by
  induction faces with
  | nil => intro idx; rfl
  | cons f fs ih =>
    intro idx
    have hone := batchOne_spec cands thr idx f (hd f (List.mem_cons_self f fs))
    have hrest := ih (fun g hg => hd g (List.mem_cons_of_mem f hg)) (idx + 1)
    simp only [batchLoop, hone, hrest]
    rfl

theorem batch_match_spec (req : BatchMatchRequest)
    (hd : ∀ f ∈ req.detected_faces, dimsOK f.embedding
      req.candidate_embeddings) :
    batch_match req = ⟨true,
      some (specBatchList req.candidate_embeddings req.confident_threshold 0
        req.detected_faces), none⟩ := by
  rw [batch_match, batchLoop_spec req.candidate_embeddings
    req.confident_threshold req.detected_faces hd 0]

/-! ### Shape of the spec batch list -/

theorem specBatchList_length (cands : List CandidateEmbeddings) (thr : ℚ) :
    ∀ idx (faces : List DetectedFaceEmb),
      (specBatchList cands thr idx faces).length = faces.length := by
  intro idx faces
  induction faces generalizing idx with
  | nil => rfl
  | cons f fs ih =>
    show (specBatchOne cands thr idx f ::
      specBatchList cands thr (idx + 1) fs).length = fs.length + 1
    rw [List.length_cons, ih]

theorem specBatchList_get (cands : List CandidateEmbeddings) (thr : ℚ) :
    ∀ (faces : List DetectedFaceEmb) (idx i : ℕ)
      (h1 : i < (specBatchList cands thr idx faces).length)
      (h2 : i < faces.length),
      (specBatchList cands thr idx faces).get ⟨i, h1⟩ =
        specBatchOne cands thr (idx + i) (faces.get ⟨i, h2⟩) := by
  intro faces
  induction faces with
  | nil => intro idx i h1 h2; cases h2
  | cons f fs ih =>
    intro idx i h1 h2
    cases i with
    | zero => rfl
    | succ j =>
      have h3 : j < (specBatchList cands thr (idx + 1) fs).length := by
        rw [specBatchList_length]
        exact Nat.lt_of_succ_lt_succ h2
      have h4 := ih (idx + 1) j h3 (Nat.lt_of_succ_lt_succ h2)
      have hstep : (specBatchList cands thr idx (f :: fs)).get ⟨j + 1, h1⟩ =
          (specBatchList cands thr (idx + 1) fs).get ⟨j, h3⟩ := rfl
      rw [hstep, h4]
      congr 1
      omega

/-! ### Aborting calls on a failed distance computation -/

theorem match_faces_dim_error (req : MatchFacesRequest)
    (c : CandidateEmbeddings) (e : List ℚ) (hc : c ∈ req.candidate_embeddings)
    (he : e ∈ c.embeddings) (h1 : req.query_embedding.length ≠ e.length)
    (h2 : req.query_embedding.length ≠ 1) (h3 : e.length ≠ 1) :
    match_faces req = ⟨false, none, none, some "Matching error"⟩ := by
  have hno : minOverEmbeddings req.query_embedding c = none :=
    minOver_eq_none _ c e he (npDist_eq_none _ _ h1 h2 h3)
  have hloop := matchLoop_eq_none req.query_embedding req.return_all_distances
    req.candidate_embeddings c hc hno ⟨none, ⊤, []⟩
  simp only [match_faces, hloop]

theorem batch_match_dim_error (req : BatchMatchRequest) (f : DetectedFaceEmb)
    (c : CandidateEmbeddings) (e : List ℚ) (hf : f ∈ req.detected_faces)
    (hc : c ∈ req.candidate_embeddings) (he : e ∈ c.embeddings)
    (h1 : f.embedding.length ≠ e.length) (h2 : f.embedding.length ≠ 1)
    (h3 : e.length ≠ 1) :
    batch_match req = ⟨false, none, some "Batch matching error"⟩ := by
  have hno : minOverEmbeddings f.embedding c = none :=
    minOver_eq_none _ c e he (npDist_eq_none _ _ h1 h2 h3)
  have hin := batchInner_eq_none f.embedding req.candidate_embeddings c hc hno
    ((none : Option String), (⊤ : EReal))
  have hloop := batchLoop_eq_none req.candidate_embeddings
    req.confident_threshold req.detected_faces f hf hin 0
  simp only [batch_match, hloop]

/-! ### Galleries with no usable embeddings -/

theorem match_faces_unusable (req : MatchFacesRequest)
    (h : ∀ c ∈ req.candidate_embeddings, c.embeddings = []) :
    match_faces req = ⟨true, none,
      if req.return_all_distances then
        some (req.candidate_embeddings.map fun c => ⟨c.student_id, ⊤⟩)
      else none, none⟩ := by
  have hd : dimsOK req.query_embedding req.candidate_embeddings := by
    intro c hc e hee
    rw [h c hc] at hee
    cases hee
  have hg := galleryMin_of_all_empty req.query_embedding
    req.candidate_embeddings h
  have hmap : req.candidate_embeddings.map
      (fun c => (⟨c.student_id, reprDist req.query_embedding c⟩ :
        DistanceInfo)) =
      req.candidate_embeddings.map (fun c => ⟨c.student_id, ⊤⟩) :=
    List.map_congr_left (fun c hc => by
      rw [reprDist_of_empty _ _ (h c hc)])
  have hn1 : ¬ (⊤ : EReal) < thrE req.threshold := not_top_lt
  have hn2 : ¬ (⊤ : EReal) < ⊤ := not_top_lt
  rw [match_faces_spec req hd]
  simp only [specResponse, hg, hmap, if_neg hn1, if_neg hn2]

/-! ### Evaluation of the handlers on the sample data -/

theorem thrE_one_pos : (0 : EReal) < thrE 1 := by
  rw [thrE]
  exact_mod_cast (one_pos : (0 : ℝ) < 1)

theorem ereal_zero_lt_top : (0 : EReal) < ⊤ := by
  rw [← EReal.coe_zero]
  exact EReal.coe_lt_top 0

theorem ereal_one_sub_zero : (1 : EReal) - 0 = 1 := by
  rw [sub_eq_add_neg, neg_zero, add_zero]

theorem reprDist_candS1 : reprDist [0] candS1 = 0 := by
  show (List.map (edist [0]) [[0]]).foldr
    (fun d m => min ((d : ℝ) : EReal) m) ⊤ = 0
  simp [edist_self, min_eq_left le_top]

theorem galleryMin_S1 : galleryMin [0] [candS1] = 0 := by
  rw [galleryMin_cons, reprDist_candS1]
  exact min_eq_left le_top

theorem firstArgmin_S1 : firstArgmin [0] [candS1] = some "S1" := by
  have hpos : decide (reprDist [0] candS1 ≤ galleryMin [0] [candS1]) = true := by
    rw [reprDist_candS1, galleryMin_S1]
    exact decide_eq_true (le_refl 0)
  rw [firstArgmin, @List.find?_cons_of_pos _
    (fun c => decide (reprDist [0] c ≤ galleryMin [0] [candS1])) candS1 []
    hpos]
  rfl

theorem match_faces_reqS1 :
    match_faces reqS1 =
      ⟨true, some ⟨some "S1", 0, 1, "confident"⟩, none, none⟩ := by
  rw [match_faces_spec reqS1 (by decide)]
  simp [specResponse, reqS1, galleryMin_S1, firstArgmin_S1,
    if_pos thrE_one_pos, ereal_one_sub_zero]

theorem specBatchOne_S1 :
    specBatchOne [candS1] 1 0 faceZ = ⟨0, some "S1", 0, "present"⟩ := by
  simp [specBatchOne, faceZ, galleryMin_S1, firstArgmin_S1,
    if_pos thrE_one_pos]

theorem batch_match_breqS1 :
    batch_match breqS1 =
      ⟨true, some [⟨0, some "S1", 0, "present"⟩], none⟩ := by
  rw [batch_match_spec breqS1 (by decide)]
  show (⟨true, some [specBatchOne [candS1] 1 0 faceZ], none⟩ :
    BatchMatchResponse) = _
  rw [specBatchOne_S1]

theorem match_faces_reqEmptyG :
    match_faces reqEmptyG = ⟨true, none, none, none⟩ := by
  have h := match_faces_unusable reqEmptyG (by intro c hc; cases hc)
  simpa [reqEmptyG] using h

theorem galleryMin_nil_top (q : List ℚ) : galleryMin q [] = ⊤ := rfl

theorem batch_match_breqEmptyG :
    batch_match breqEmptyG =
      ⟨true, some [⟨0, none, ⊤, "unknown"⟩], none⟩ := by
  rw [batch_match_spec breqEmptyG (by decide)]
  have hone : specBatchOne [] 1 0 faceZ = ⟨0, none, ⊤, "unknown"⟩ := by
    simp [specBatchOne, faceZ, galleryMin_nil_top, if_neg not_top_lt]
  show (⟨true, some [specBatchOne [] 1 0 faceZ], none⟩ :
    BatchMatchResponse) = _
  rw [hone]

/-! ### Evaluation of the broadcast request -/

theorem npDist_broadcast : npDist [0, 0] [0] = some 0 := by
  have hsub : npSub [0, 0] [0] = some [0, 0] := by
    rw [npSub]
    norm_num
  have hzero : sumSq [0, 0] = 0 := by norm_num [sumSq]
  rw [npDist, hsub]
  show some (npNorm [0, 0]) = some 0
  rw [npNorm, hzero]
  norm_num

theorem minOver_broadcast : minOverEmbeddings [0, 0] candS1 = some 0 := by
  have hlist : distList [0, 0] [[0]] = some [0] := by
    simp only [distList, npDist_broadcast]
  show (match distList [0, 0] [[0]] with
    | none => none
    | some ds => some (ds.foldr (fun d m => min ((d : ℝ) : EReal) m) ⊤)) =
      some 0
  rw [hlist]
  simp [min_eq_left le_top]

theorem match_faces_reqBroadcast :
    match_faces reqBroadcast =
      ⟨true, some ⟨some "S1", 0, 1, "confident"⟩, none, none⟩ := by
  have hloop : matchLoop [0, 0] false ⟨none, ⊤, []⟩ [candS1] =
      some ⟨some "S1", 0, []⟩ := by
    simp only [matchLoop, minOver_broadcast, if_pos ereal_zero_lt_top]
    simp [candS1]
  show (match matchLoop [0, 0] false ⟨none, ⊤, []⟩ [candS1] with
    | none => (⟨false, none, none, some "Matching error"⟩ : MatchFacesResponse)
    | some st =>
      if st.best_distance < thrE 1 then
        ⟨true,
         if st.best_distance < ⊤ then
           some ⟨st.best_match, st.best_distance, 1 - st.best_distance,
             "confident"⟩
         else none,
         if false then some st.all_distances else none, none⟩
      else
        ⟨true,
         if st.best_distance < ⊤ then
           some ⟨none, st.best_distance, 0, "no_match"⟩
         else none,
         if false then some st.all_distances else none, none⟩) = _
  rw [hloop]
  simp [if_pos thrE_one_pos, if_pos ereal_zero_lt_top, ereal_one_sub_zero]

/-! ### Identities without embeddings are never selected -/

theorem minOver_lt_top_ne_nil (q : List ℚ) (c : CandidateEmbeddings)
    (md : EReal) (h : minOverEmbeddings q c = some md) (hlt : md < ⊤) :
    c.embeddings ≠ [] := by
  intro hnil
  rw [minOver_of_empty q c hnil] at h
  injection h with h2
  rw [← h2] at hlt
  exact absurd hlt (lt_irrefl ⊤)

theorem matchLoop_best_mem (q : List ℚ) (ret : Bool)
    (cands : List CandidateEmbeddings) :
    ∀ st st2, matchLoop q ret st cands = some st2 →
      ∀ s, st2.best_match = some s →
        st.best_match = some s ∨
          ∃ c ∈ cands, c.student_id = s ∧ c.embeddings ≠ [] := by
  induction cands with
  | nil =>
    intro st st2 h s hs
    rw [matchLoop] at h
    injection h with h2
    subst h2
    exact Or.inl hs
  | cons c cs ih =>
    intro st st2 h s hs
    cases hmo : minOverEmbeddings q c with
    | none =>
      simp only [matchLoop, hmo] at h
      exact Option.noConfusion h
    | some md =>
      simp only [matchLoop, hmo] at h
      by_cases hlt : md < st.best_distance
      · rw [if_pos hlt] at h
        rcases ih _ _ h s hs with hinit | ⟨b, hbmem, hbs, hbne⟩
        · have hcs : c.student_id = s := by
            injection hinit
          have hne : c.embeddings ≠ [] :=
            minOver_lt_top_ne_nil q c md hmo (lt_of_lt_of_le hlt le_top)
          exact Or.inr ⟨c, List.mem_cons_self c cs, hcs, hne⟩
        · exact Or.inr ⟨b, List.mem_cons_of_mem c hbmem, hbs, hbne⟩
      · rw [if_neg hlt] at h
        rcases ih _ _ h s hs with hinit | ⟨b, hbmem, hbs, hbne⟩
        · exact Or.inl hinit
        · exact Or.inr ⟨b, List.mem_cons_of_mem c hbmem, hbs, hbne⟩

theorem batchInner_best_mem (q : List ℚ) (cands : List CandidateEmbeddings) :
    ∀ st st2, batchInner q st cands = some st2 →
      ∀ s, st2.1 = some s →
        st.1 = some s ∨
          ∃ c ∈ cands, c.student_id = s ∧ c.embeddings ≠ [] := by
  induction cands with
  | nil =>
    intro st st2 h s hs
    rw [batchInner] at h
    injection h with h2
    subst h2
    exact Or.inl hs
  | cons c cs ih =>
    intro st st2 h s hs
    cases hmo : minOverEmbeddings q c with
    | none =>
      simp only [batchInner, hmo] at h
      exact Option.noConfusion h
    | some md =>
      simp only [batchInner, hmo] at h
      by_cases hlt : md < st.2
      · rw [if_pos hlt] at h
        rcases ih _ _ h s hs with hinit | ⟨b, hbmem, hbs, hbne⟩
        · have hcs : c.student_id = s := by
            injection hinit
          have hne : c.embeddings ≠ [] :=
            minOver_lt_top_ne_nil q c md hmo (lt_of_lt_of_le hlt le_top)
          exact Or.inr ⟨c, List.mem_cons_self c cs, hcs, hne⟩
        · exact Or.inr ⟨b, List.mem_cons_of_mem c hbmem, hbs, hbne⟩
      · rw [if_neg hlt] at h
        rcases ih _ _ h s hs with hinit | ⟨b, hbmem, hbs, hbne⟩
        · exact Or.inl hinit
        · exact Or.inr ⟨b, List.mem_cons_of_mem c hbmem, hbs, hbne⟩

theorem batchOne_student_mem (cands : List CandidateEmbeddings) (thr : ℚ)
    (idx : ℕ) (f : DetectedFaceEmb) (r : BatchMatchResult)
    (h : batchOne cands thr idx f = some r) (s : String)
    (hs : r.student_id = some s) :
    ∃ c ∈ cands, c.student_id = s ∧ c.embeddings ≠ [] := by
  cases hin : batchInner f.embedding (none, ⊤) cands with
  | none =>
    simp only [batchOne, hin] at h
    exact Option.noConfusion h
  | some st =>
    simp only [batchOne, hin] at h
    by_cases hthr : st.2 < thrE thr
    · rw [if_pos hthr] at h
      injection h with h2
      subst h2
      rcases batchInner_best_mem f.embedding cands _ _ hin s hs with
        hinit | hmem
      · cases hinit
      · exact hmem
    · rw [if_neg hthr] at h
      injection h with h2
      subst h2
      cases hs

theorem batchLoop_student_mem (cands : List CandidateEmbeddings) (thr : ℚ) :
    ∀ (faces : List DetectedFaceEmb) (idx : ℕ)
      (ms : List BatchMatchResult),
      batchLoop cands thr idx faces = some ms →
      ∀ b ∈ ms, ∀ s, b.student_id = some s →
        ∃ c ∈ cands, c.student_id = s ∧ c.embeddings ≠ [] := by
  intro faces
  induction faces with
  | nil =>
    intro idx ms h b hb s hs
    rw [batchLoop] at h
    injection h with h2
    subst h2
    cases hb
  | cons f fs ih =>
    intro idx ms h b hb s hs
    cases h1 : batchOne cands thr idx f with
    | none =>
      simp only [batchLoop, h1] at h
      exact Option.noConfusion h
    | some r =>
      cases h2 : batchLoop cands thr (idx + 1) fs with
      | none =>
        simp only [batchLoop, h1, h2] at h
        exact Option.noConfusion h
      | some rs =>
        simp only [batchLoop, h1, h2] at h
        injection h with h3
        subst h3
        rcases List.mem_cons.mp hb with rfl | hbmem
        · exact batchOne_student_mem cands thr idx f b h1 s hs
        · exact ih (idx + 1) rs h2 b hbmem s hs

theorem match_faces_student_mem (req : MatchFacesRequest) (r : MatchResult)
    (s : String) (hm : (match_faces req).matched = some r)
    (hs : r.student_id = some s) :
    ∃ c ∈ req.candidate_embeddings, c.student_id = s ∧ c.embeddings ≠ [] := by
  cases hloop : matchLoop req.query_embedding req.return_all_distances
      ⟨none, ⊤, []⟩ req.candidate_embeddings with
  | none =>
    simp only [match_faces, hloop] at hm
    exact Option.noConfusion hm
  | some st =>
    by_cases hthr : st.best_distance < thrE req.threshold
    · by_cases htop : st.best_distance < ⊤
      · simp only [match_faces, hloop, if_pos hthr, if_pos htop] at hm
        injection hm with hm2
        subst hm2
        rcases matchLoop_best_mem req.query_embedding
            req.return_all_distances req.candidate_embeddings _ _ hloop s
            hs with hinit | hmem
        · cases hinit
        · exact hmem
      · simp only [match_faces, hloop, if_pos hthr, if_neg htop] at hm
        exact Option.noConfusion hm
    · by_cases htop : st.best_distance < ⊤
      · simp only [match_faces, hloop, if_neg hthr, if_pos htop] at hm
        injection hm with hm2
        subst hm2
        cases hs
      · simp only [match_faces, hloop, if_neg hthr, if_neg htop] at hm
        exact Option.noConfusion hm

theorem batch_match_student_mem (req : BatchMatchRequest)
    (ms : List BatchMatchResult) (b : BatchMatchResult) (s : String)
    (hm : (batch_match req).matchList = some ms) (hb : b ∈ ms)
    (hs : b.student_id = some s) :
    ∃ c ∈ req.candidate_embeddings, c.student_id = s ∧ c.embeddings ≠ [] := by
  cases hloop : batchLoop req.candidate_embeddings req.confident_threshold 0
      req.detected_faces with
  | none =>
    simp only [batch_match, hloop] at hm
    exact Option.noConfusion hm
  | some rs =>
    simp only [batch_match, hloop] at hm
    injection hm with hm2
    subst hm2
    exact batchLoop_student_mem req.candidate_embeddings
      req.confident_threshold req.detected_faces 0 rs hloop b hb s hs

/-! ### Helpers for the batch shape and the detection filter -/

theorem specBatchOne_face_index (cands : List CandidateEmbeddings) (thr : ℚ)
    (idx : ℕ) (f : DetectedFaceEmb) :
    (specBatchOne cands thr idx f).face_index = idx := by
  rw [specBatchOne]
  by_cases hthr : galleryMin f.embedding cands < thrE thr
  · simp only [if_pos hthr]
  · simp only [if_neg hthr]

theorem detectKept_eq_filter (h w : ℕ) (minRatioArg : ℚ)
    (pairs : List (FaceLocation × List ℚ)) :
    detectKept h w minRatioArg pairs =
      (pairs.filter
        (fun p => ! decide (faceAreaRatio h w p.1 < minRatioArg))).map
        (fun p => ⟨p.2, p.1⟩) := by
  induction pairs with
  | nil => rfl
  | cons p rest ih =>
    by_cases hp : faceAreaRatio h w p.1 < minRatioArg
    · rw [detectKept, if_pos hp, ih, List.filter_cons]
      simp [hp]
    · rw [detectKept, if_neg hp, ih, List.filter_cons]
      simp [hp]

/-! ### Claims -/

/-- C1: for every gallery holding at least one identity with at least one
reference embedding, and a query of the same length as every reference
embedding, `match_faces` reports a match object whose distance is the
minimum over all identities and all of their reference embeddings of the
Euclidean distance to the query (a lower bound on every query-to-reference
distance, attained by one of them); and any reported identity is the first
identity in gallery iteration order attaining that minimum — every earlier
identity is strictly farther, so ties resolve to the first identity. -/
theorem claim_C1_best_distance_is_minimum (req : MatchFacesRequest)
    (hd : dimsOK req.query_embedding req.candidate_embeddings)
    (hu : usableGallery req.candidate_embeddings) :
    ∃ r, (match_faces req).matched = some r ∧
      (∀ c ∈ req.candidate_embeddings, ∀ e ∈ c.embeddings,
        r.distance ≤ ((edist req.query_embedding e : ℝ) : EReal)) ∧
      (∃ c ∈ req.candidate_embeddings, ∃ e ∈ c.embeddings,
        r.distance = ((edist req.query_embedding e : ℝ) : EReal)) ∧
      (∀ s, r.student_id = some s →
        ∃ l1 c l2, req.candidate_embeddings = l1 ++ c :: l2 ∧
          c.student_id = s ∧
          reprDist req.query_embedding c = r.distance ∧
          ∀ b ∈ l1, r.distance < reprDist req.query_embedding b) := by
  have htop := galleryMin_lt_top req.query_embedding req.candidate_embeddings
    hu
  have hA : ∀ c ∈ req.candidate_embeddings, ∀ e ∈ c.embeddings,
      galleryMin req.query_embedding req.candidate_embeddings ≤
        ((edist req.query_embedding e : ℝ) : EReal) := by
    intro c hc e he
    exact le_trans (galleryMin_le _ _ c hc) (reprDist_le_edist _ c e he)
  have hB : ∃ c ∈ req.candidate_embeddings, ∃ e ∈ c.embeddings,
      galleryMin req.query_embedding req.candidate_embeddings =
        ((edist req.query_embedding e : ℝ) : EReal) := by
    rcases galleryMin_attains req.query_embedding req.candidate_embeddings
      with hgt | ⟨c, hc, hce⟩
    · rw [hgt] at htop
      exact absurd htop (lt_irrefl ⊤)
    · rcases reprDist_attains req.query_embedding c with hrt | ⟨e, he, hee⟩
      · rw [hce, hrt] at htop
        exact absurd htop (lt_irrefl ⊤)
      · exact ⟨c, hc, e, he, by rw [hce, hee]⟩
  have hC : ∀ s, firstArgmin req.query_embedding req.candidate_embeddings =
      some s →
      ∃ l1 c l2, req.candidate_embeddings = l1 ++ c :: l2 ∧
        c.student_id = s ∧
        reprDist req.query_embedding c =
          galleryMin req.query_embedding req.candidate_embeddings ∧
        ∀ b ∈ l1, galleryMin req.query_embedding req.candidate_embeddings <
          reprDist req.query_embedding b := by
    intro s hs
    rw [firstArgmin] at hs
    cases hf : List.find? (fun c => decide (reprDist req.query_embedding c ≤
        galleryMin req.query_embedding req.candidate_embeddings))
        req.candidate_embeddings with
    | none =>
      rw [hf] at hs
      exact Option.noConfusion hs
    | some a =>
      rw [hf] at hs
      have has : a.student_id = s := by
        injection hs
      obtain ⟨l1, l2, heq, hp, hall⟩ := find?_decomp _ _ a hf
      have hmem : a ∈ req.candidate_embeddings := by
        rw [heq]
        exact List.mem_append_right l1 (List.mem_cons_self a l2)
      have hle : reprDist req.query_embedding a ≤
          galleryMin req.query_embedding req.candidate_embeddings :=
        of_decide_eq_true hp
      have heqd : reprDist req.query_embedding a =
          galleryMin req.query_embedding req.candidate_embeddings :=
        le_antisymm hle (galleryMin_le _ _ a hmem)
      refine ⟨l1, a, l2, heq, has, heqd, ?_⟩
      intro b hb
      have hnle : ¬ reprDist req.query_embedding b ≤
          galleryMin req.query_embedding req.candidate_embeddings :=
        fun hcon => hall b hb (decide_eq_true hcon)
      exact not_le.mp hnle
  rw [match_faces_spec req hd]
  by_cases hthr : galleryMin req.query_embedding req.candidate_embeddings <
      thrE req.threshold
  · refine ⟨⟨firstArgmin req.query_embedding req.candidate_embeddings,
      galleryMin req.query_embedding req.candidate_embeddings,
      1 - galleryMin req.query_embedding req.candidate_embeddings,
      "confident"⟩, ?_, hA, hB, ?_⟩
    · simp only [specResponse, if_pos hthr]
    · exact hC
  · refine ⟨⟨none,
      galleryMin req.query_embedding req.candidate_embeddings, 0,
      "no_match"⟩, ?_, hA, hB, ?_⟩
    · simp only [specResponse, if_neg hthr, if_pos htop]
    · intro s hs
      exact Option.noConfusion hs

/-- Witness for C1 at the sample request `reqS1`. -/
theorem claim_C1_best_distance_is_minimum_witness :
    ∃ r, (match_faces reqS1).matched = some r ∧
      (∀ c ∈ reqS1.candidate_embeddings, ∀ e ∈ c.embeddings,
        r.distance ≤ ((edist reqS1.query_embedding e : ℝ) : EReal)) ∧
      (∃ c ∈ reqS1.candidate_embeddings, ∃ e ∈ c.embeddings,
        r.distance = ((edist reqS1.query_embedding e : ℝ) : EReal)) ∧
      (∀ s, r.student_id = some s →
        ∃ l1 c l2, reqS1.candidate_embeddings = l1 ++ c :: l2 ∧
          c.student_id = s ∧
          reprDist reqS1.query_embedding c = r.distance ∧
          ∀ b ∈ l1, r.distance < reprDist reqS1.query_embedding b) :=
  claim_C1_best_distance_is_minimum reqS1 (by decide) (by decide)

/-- C2 counterexample: in `reqBroadcast` the stored embedding of identity
"S1" has length 1 while the query has length 2, a dimension mismatch; yet
the call does not abort with any error: NumPy broadcasting silently coerces
the mismatch and the handler returns a successful confident match. -/
theorem claim_C2_counterexample :
    (∃ c ∈ reqBroadcast.candidate_embeddings, ∃ e ∈ c.embeddings,
      e.length ≠ reqBroadcast.query_embedding.length) ∧
    match_faces reqBroadcast =
      ⟨true, some ⟨some "S1", 0, 1, "confident"⟩, none, none⟩ :=
  ⟨⟨candS1, List.mem_cons_self candS1 [],
    ⟨[0], List.mem_cons_self [0] [], by decide⟩⟩,
   match_faces_reqBroadcast⟩

/-- C2 amended: when the query length differs from a stored embedding's
length and neither length equals 1 (so NumPy broadcasting cannot apply),
the distance computation fails and the whole call aborts with a structured
generic failure — `success = false`, no match object and no partial
distance list for `match_faces`, no partial match list for `batch_match`;
the failure carries a generic matching-error message, not a distinct
DimensionMismatch code, and when either length is 1 the mismatch is
silently coerced by broadcasting instead. -/
theorem claim_C2_amended (reqM : MatchFacesRequest) (reqB : BatchMatchRequest)
    (c : CandidateEmbeddings) (e : List ℚ)
    (hc : c ∈ reqM.candidate_embeddings) (he : e ∈ c.embeddings)
    (h1 : reqM.query_embedding.length ≠ e.length)
    (h2 : reqM.query_embedding.length ≠ 1) (h3 : e.length ≠ 1)
    (f : DetectedFaceEmb) (c2 : CandidateEmbeddings) (e2 : List ℚ)
    (hf : f ∈ reqB.detected_faces) (hc2 : c2 ∈ reqB.candidate_embeddings)
    (he2 : e2 ∈ c2.embeddings) (h4 : f.embedding.length ≠ e2.length)
    (h5 : f.embedding.length ≠ 1) (h6 : e2.length ≠ 1) :
    match_faces reqM = ⟨false, none, none, some "Matching error"⟩ ∧
    batch_match reqB = ⟨false, none, some "Batch matching error"⟩ :=
  ⟨match_faces_dim_error reqM c e hc he h1 h2 h3,
   batch_match_dim_error reqB f c2 e2 hf hc2 he2 h4 h5 h6⟩

/-- Witness for the amended C2 at the three-vs-two dimension mismatch. -/
theorem claim_C2_amended_witness :
    match_faces reqBadDim = ⟨false, none, none, some "Matching error"⟩ ∧
    batch_match breqBadDim =
      ⟨false, none, some "Batch matching error"⟩ :=
  claim_C2_amended reqBadDim breqBadDim candS2 [0, 0]
    (List.mem_cons_self candS2 []) (List.mem_cons_self [0, 0] [])
    (by decide) (by decide) (by decide)
    (⟨[0, 0, 0]⟩ : DetectedFaceEmb) candS2 [0, 0]
    (List.mem_cons_self (⟨[0, 0, 0]⟩ : DetectedFaceEmb) [])
    (List.mem_cons_self candS2 []) (List.mem_cons_self [0, 0] [])
    (by decide) (by decide) (by decide)

/-- C3: over equal-length embeddings and a gallery with at least one usable
embedding, `match_faces` reports a match object that follows the threshold
decision: if the best distance is strictly below the threshold the status
is "confident", the confidence is `1 - best_distance` (not clamped to
[0,1]) and the matched identity is reported; otherwise the status is
"no_match", the confidence is 0 and no identity is reported even though a
nearest identity exists (`firstArgmin` is not `none`). -/
theorem claim_C3_threshold_decision (req : MatchFacesRequest)
    (hd : dimsOK req.query_embedding req.candidate_embeddings)
    (hu : usableGallery req.candidate_embeddings) :
    (match_faces req).matched = some
      (if galleryMin req.query_embedding req.candidate_embeddings <
          thrE req.threshold then
        ⟨firstArgmin req.query_embedding req.candidate_embeddings,
         galleryMin req.query_embedding req.candidate_embeddings,
         1 - galleryMin req.query_embedding req.candidate_embeddings,
         "confident"⟩
      else
        ⟨none, galleryMin req.query_embedding req.candidate_embeddings, 0,
         "no_match"⟩) ∧
    firstArgmin req.query_embedding req.candidate_embeddings ≠ none := by
  have htop := galleryMin_lt_top req.query_embedding req.candidate_embeddings
    hu
  refine ⟨?_, ?_⟩
  · rw [match_faces_spec req hd]
    by_cases hthr : galleryMin req.query_embedding req.candidate_embeddings <
        thrE req.threshold
    · simp only [specResponse, if_pos hthr]
    · simp only [specResponse, if_neg hthr, if_pos htop]
  · obtain ⟨s, hsome⟩ := firstArgmin_isSome _ _ htop
    rw [hsome]
    exact Option.some_ne_none s

/-- Witness for C3 at the sample request `reqS1`. -/
theorem claim_C3_threshold_decision_witness :
    (match_faces reqS1).matched = some
      (if galleryMin reqS1.query_embedding reqS1.candidate_embeddings <
          thrE reqS1.threshold then
        ⟨firstArgmin reqS1.query_embedding reqS1.candidate_embeddings,
         galleryMin reqS1.query_embedding reqS1.candidate_embeddings,
         1 - galleryMin reqS1.query_embedding reqS1.candidate_embeddings,
         "confident"⟩
      else
        ⟨none, galleryMin reqS1.query_embedding reqS1.candidate_embeddings,
         0, "no_match"⟩) ∧
    firstArgmin reqS1.query_embedding reqS1.candidate_embeddings ≠ none :=
  claim_C3_threshold_decision reqS1 (by decide) (by decide)

/-- C4 counterexample: on the empty-gallery request the response carries no
match object at all (`matched = none`), so no "no_match" status, no
infinite distance and no identity field are reported, contrary to the
claim's description of the result. -/
theorem claim_C4_counterexample :
    ¬ ∃ r : MatchResult, (match_faces reqEmptyG).matched = some r ∧
      r.status = "no_match" ∧ r.distance = ⊤ ∧ r.student_id = none := by
  intro hcl
  obtain ⟨r, hr, _⟩ := hcl
  rw [match_faces_reqEmptyG] at hr
  exact Option.noConfusion hr

/-- C4 amended: for a gallery that is empty or whose identities all have
empty embedding lists, `match_faces` succeeds with no match object at all —
`matched = none`, so no status, no distance and no identity are reported
(the internal best distance is `+inf`); the per-identity distance list is
`none` unless `return_all_distances` was requested, in which case the
per-identity list (empty for an empty gallery, otherwise with all-infinite
representative distances) is still returned. -/
theorem claim_C4_amended (req : MatchFacesRequest)
    (h : ∀ c ∈ req.candidate_embeddings, c.embeddings = []) :
    match_faces req = ⟨true, none,
      if req.return_all_distances then
        some (req.candidate_embeddings.map fun c => ⟨c.student_id, ⊤⟩)
      else none, none⟩ :=
  match_faces_unusable req h

/-- Witness for the amended C4 at the empty-gallery request. -/
theorem claim_C4_amended_witness :
    match_faces reqEmptyG = ⟨true, none,
      if reqEmptyG.return_all_distances then
        some (reqEmptyG.candidate_embeddings.map fun c =>
          ⟨c.student_id, ⊤⟩)
      else none, none⟩ :=
  claim_C4_amended reqEmptyG (by decide)

/-- C5: an identity whose reference-embedding list is empty has an
unbounded (infinite) representative distance, and neither `match_faces`
nor `batch_match` ever reports such an identity as the best match: any
identity reported by either endpoint belongs to the gallery and has a
non-empty embedding list. -/
theorem claim_C5_empty_identity_never_selected (reqM : MatchFacesRequest)
    (reqB : BatchMatchRequest) (r : MatchResult) (s : String)
    (ms : List BatchMatchResult) (b : BatchMatchResult) (s2 : String)
    (hm : (match_faces reqM).matched = some r)
    (hs : r.student_id = some s)
    (hbm : (batch_match reqB).matchList = some ms)
    (hb : b ∈ ms) (hs2 : b.student_id = some s2) :
    (∀ c : CandidateEmbeddings, c.embeddings = [] →
      minOverEmbeddings reqM.query_embedding c = some ⊤) ∧
    (∃ c ∈ reqM.candidate_embeddings, c.student_id = s ∧
      c.embeddings ≠ []) ∧
    (∃ c ∈ reqB.candidate_embeddings, c.student_id = s2 ∧
      c.embeddings ≠ []) :=
  ⟨fun c hc => minOver_of_empty reqM.query_embedding c hc,
   match_faces_student_mem reqM r s hm hs,
   batch_match_student_mem reqB ms b s2 hbm hb hs2⟩

/-- Witness for C5 at the sample requests. -/
theorem claim_C5_empty_identity_never_selected_witness :
    (∀ c : CandidateEmbeddings, c.embeddings = [] →
      minOverEmbeddings reqS1.query_embedding c = some ⊤) ∧
    (∃ c ∈ reqS1.candidate_embeddings, c.student_id = "S1" ∧
      c.embeddings ≠ []) ∧
    (∃ c ∈ breqS1.candidate_embeddings, c.student_id = "S1" ∧
      c.embeddings ≠ []) :=
  claim_C5_empty_identity_never_selected reqS1 breqS1
    ⟨some "S1", 0, 1, "confident"⟩ "S1" [⟨0, some "S1", 0, "present"⟩]
    ⟨0, some "S1", 0, "present"⟩ "S1"
    (by rw [match_faces_reqS1]) rfl (by rw [batch_match_breqS1])
    (List.mem_cons_self _ []) rfl

/-- C6: over equal-length embeddings, `batch_match` succeeds and matches
each query independently against the same gallery with the single-query
decision rule under the labels "present" (best distance strictly below the
threshold) and "unknown" (otherwise): the output holds one entry per input
face, in input order, the i-th entry's `face_index` equals `i`, and the
i-th entry is exactly the decision for the i-th input face. -/
theorem claim_C6_batch_order_and_decision (req : BatchMatchRequest)
    (hd : ∀ f ∈ req.detected_faces, dimsOK f.embedding
      req.candidate_embeddings) :
    ∃ ms, (batch_match req).success = true ∧
      (batch_match req).matchList = some ms ∧
      ms.length = req.detected_faces.length ∧
      ∀ i (h1 : i < ms.length) (h2 : i < req.detected_faces.length),
        ms.get ⟨i, h1⟩ = specBatchOne req.candidate_embeddings
          req.confident_threshold i (req.detected_faces.get ⟨i, h2⟩) ∧
        (ms.get ⟨i, h1⟩).face_index = i := by
  refine ⟨specBatchList req.candidate_embeddings req.confident_threshold 0
    req.detected_faces, ?_, ?_, specBatchList_length _ _ 0 _, ?_⟩
  · rw [batch_match_spec req hd]
  · rw [batch_match_spec req hd]
  · intro i h1 h2
    have hget := specBatchList_get req.candidate_embeddings
      req.confident_threshold req.detected_faces 0 i h1 h2
    rw [Nat.zero_add] at hget
    refine ⟨hget, ?_⟩
    rw [hget]
    exact specBatchOne_face_index _ _ _ _

/-- Witness for C6 at the sample batch request. -/
theorem claim_C6_batch_order_and_decision_witness :
    ∃ ms, (batch_match breqS1).success = true ∧
      (batch_match breqS1).matchList = some ms ∧
      ms.length = breqS1.detected_faces.length ∧
      ∀ i (h1 : i < ms.length) (h2 : i < breqS1.detected_faces.length),
        ms.get ⟨i, h1⟩ = specBatchOne breqS1.candidate_embeddings
          breqS1.confident_threshold i
          (breqS1.detected_faces.get ⟨i, h2⟩) ∧
        (ms.get ⟨i, h1⟩).face_index = i :=
  claim_C6_batch_order_and_decision breqS1 (by decide)

/-- C7: for equal-length embeddings the distance actually computed is the
Euclidean distance, which is symmetric, non-negative, zero on identical
inputs, and zero exactly when the two vectors are identical. -/
theorem claim_C7_distance_properties (a b : List ℚ)
    (hlen : a.length = b.length) :
    npDist a b = some (edist a b) ∧ edist a b = edist b a ∧
    0 ≤ edist a b ∧ edist a a = 0 ∧ (edist a b = 0 ↔ a = b) :=
  ⟨npDist_of_eq_length a b hlen.symm, edist_comm a b, edist_nonneg a b,
   edist_self a, edist_eq_zero_iff a b hlen⟩

/-- Witness for C7 at two concrete two-dimensional embeddings. -/
theorem claim_C7_distance_properties_witness :
    npDist [1, 2] [3, 4] = some (edist [1, 2] [3, 4]) ∧
    edist [1, 2] [3, 4] = edist [3, 4] [1, 2] ∧
    0 ≤ edist [1, 2] [3, 4] ∧ edist [1, 2] [1, 2] = 0 ∧
    (edist [1, 2] [3, 4] = 0 ↔ [1, 2] = ([3, 4] : List ℚ)) :=
  claim_C7_distance_properties [1, 2] [3, 4] (by decide)

/-- C8: if matching any single query of a batch fails (a dimension mismatch
that broadcasting cannot coerce), the entire batch call aborts with a
structured failure response — `success = false` with an error message and
no match list at all, in particular no partial list for the queries
preceding the failure. -/
theorem claim_C8_batch_whole_call_failure (req : BatchMatchRequest)
    (f : DetectedFaceEmb) (c : CandidateEmbeddings) (e : List ℚ)
    (hf : f ∈ req.detected_faces) (hc : c ∈ req.candidate_embeddings)
    (he : e ∈ c.embeddings) (h1 : f.embedding.length ≠ e.length)
    (h2 : f.embedding.length ≠ 1) (h3 : e.length ≠ 1) :
    batch_match req = ⟨false, none, some "Batch matching error"⟩ :=
  batch_match_dim_error req f c e hf hc he h1 h2 h3

/-- Witness for C8 at the mismatched batch request. -/
theorem claim_C8_batch_whole_call_failure_witness :
    batch_match breqBadDim = ⟨false, none, some "Batch matching error"⟩ :=
  claim_C8_batch_whole_call_failure breqBadDim
    (⟨[0, 0, 0]⟩ : DetectedFaceEmb) candS2 [0, 0]
    (List.mem_cons_self _ []) (List.mem_cons_self _ [])
    (List.mem_cons_self _ []) (by decide) (by decide) (by decide)

/-- C9: at the embedding-extraction boundary, when single-face validation
is requested and more than one face is detected, `encode_face` fails with
the MultipleFaces error instead of picking one face arbitrarily; and in the
multi-face detection path `detect_faces` always succeeds, silently dropping
exactly those detected faces whose bounding-box-to-image area ratio falls
below the configured minimum. -/
theorem claim_C9_validation_gates (h w : ℕ) (validate_single : Bool)
    (minRatioA : ℚ) (locations : List FaceLocation) (encoding : List ℚ)
    (hx wx : ℕ) (minRatioB : ℚ) (locations2 : List FaceLocation)
    (encodings2 : List (List ℚ))
    (hmulti : 1 < locations.length) (hvs : validate_single = true) :
    encode_face h w validate_single minRatioA locations encoding =
      ⟨false, some ErrorCode.MULTIPLE_FACES, none, none⟩ ∧
    (detect_faces hx wx minRatioB locations2 encodings2).success = true ∧
    (detect_faces hx wx minRatioB locations2 encodings2).faces =
      some (((locations2.zip encodings2).filter
        (fun p => ! decide (faceAreaRatio hx wx p.1 < minRatioB))).map
        (fun p => ⟨p.2, p.1⟩)) := by
  refine ⟨?_, ?_, ?_⟩
  · cases locations with
    | nil => simp at hmulti
    | cons loc rest =>
      have hne : rest ≠ [] := by
        intro hr
        rw [hr] at hmulti
        simp at hmulti
      simp only [encode_face, if_pos (And.intro hvs hne)]
  · by_cases hl : locations2 = []
    · simp only [detect_faces, if_pos hl]
    · simp only [detect_faces, if_neg hl]
  · by_cases hl : locations2 = []
    · simp only [detect_faces, if_pos hl, hl]
      rfl
    · simp only [detect_faces, if_neg hl]
      rw [detectKept_eq_filter]

/-- Witness for C9 at a 10×10 image with one large and one small face. -/
theorem claim_C9_validation_gates_witness :
    encode_face 10 10 true (1 / 25 : ℚ) [locBig, locSmall] [1] =
      ⟨false, some ErrorCode.MULTIPLE_FACES, none, none⟩ ∧
    (detect_faces 10 10 (1 / 25 : ℚ) [locBig, locSmall]
      [[1], [2]]).success = true ∧
    (detect_faces 10 10 (1 / 25 : ℚ) [locBig, locSmall] [[1], [2]]).faces =
      some ((([locBig, locSmall].zip [[1], [2]]).filter
        (fun p => ! decide (faceAreaRatio 10 10 p.1 < (1 / 25 : ℚ)))).map
        (fun p => ⟨p.2, p.1⟩)) :=
  claim_C9_validation_gates 10 10 true (1 / 25) [locBig, locSmall] [1]
    10 10 (1 / 25) [locBig, locSmall] [[1], [2]] (by decide) rfl

/-- C10: on a gallery that is empty or whose identities have no embeddings,
`batch_match` still yields one result entry per query carrying its
`face_index`, no identity, distance `+inf` and status "unknown", whereas
`match_faces` in the same situation returns no match object at all. -/
theorem claim_C10_empty_gallery_batch_vs_single (reqB : BatchMatchRequest)
    (reqM : MatchFacesRequest)
    (hB : ∀ c ∈ reqB.candidate_embeddings, c.embeddings = [])
    (hM : ∀ c ∈ reqM.candidate_embeddings, c.embeddings = []) :
    ∃ ms, (batch_match reqB).success = true ∧
      (batch_match reqB).matchList = some ms ∧
      ms.length = reqB.detected_faces.length ∧
      (∀ i (h1 : i < ms.length),
        ms.get ⟨i, h1⟩ = ⟨i, none, ⊤, "unknown"⟩) ∧
      (match_faces reqM).matched = none := by
  have hd : ∀ f ∈ reqB.detected_faces, dimsOK f.embedding
      reqB.candidate_embeddings := by
    intro f hf c hc e he
    rw [hB c hc] at he
    cases he
  refine ⟨specBatchList reqB.candidate_embeddings reqB.confident_threshold 0
    reqB.detected_faces, ?_, ?_, specBatchList_length _ _ 0 _, ?_, ?_⟩
  · rw [batch_match_spec reqB hd]
  · rw [batch_match_spec reqB hd]
  · intro i h1
    have h2 : i < reqB.detected_faces.length := by
      rw [← specBatchList_length reqB.candidate_embeddings
        reqB.confident_threshold 0 reqB.detected_faces]
      exact h1
    have hget := specBatchList_get reqB.candidate_embeddings
      reqB.confident_threshold reqB.detected_faces 0 i h1 h2
    rw [Nat.zero_add] at hget
    rw [hget, specBatchOne]
    have hg := galleryMin_of_all_empty
      (reqB.detected_faces.get ⟨i, h2⟩).embedding reqB.candidate_embeddings
      hB
    simp only [hg, if_neg (not_top_lt)]
  · rw [match_faces_unusable reqM hM]

/-- Witness for C10 at the empty-gallery sample requests. -/
theorem claim_C10_empty_gallery_batch_vs_single_witness :
    ∃ ms, (batch_match breqEmptyG).success = true ∧
      (batch_match breqEmptyG).matchList = some ms ∧
      ms.length = breqEmptyG.detected_faces.length ∧
      (∀ i (h1 : i < ms.length),
        ms.get ⟨i, h1⟩ = ⟨i, none, ⊤, "unknown"⟩) ∧
      (match_faces reqEmptyG).matched = none :=
  claim_C10_empty_gallery_batch_vs_single breqEmptyG reqEmptyG
    (by decide) (by decide)

end FaceRec
